import Mathlib

set_option maxRecDepth 4000

/-!
Verification of the ddb-explorer terminal DynamoDB browser (Go).

Shallow embedding of the program's core, translated from the source:
  * `aws/dynamodb.go` (shipped inside README.md of the repository): the value
    codec (`formatAttributeValue`, `attributeValueToInterface`), the query
    condition building and start-key encoding in `Client.Query`, and
    `Client.ListTables`;
  * `main.go`: preview-column detection, the page-history pagination logic of
    the results view (Ctrl+B / Ctrl+N handlers), the item-detail rendering
    (which deletes schema fields from the displayed item map), and
    `saveItemAsJSON` (export file name and 4-space-indented JSON body).

Go maps are modelled as association lists with unique keys; Go's
nondeterministic map iteration order is modelled as the list order wherever
the program iterates a map (no claim depends on that order).  The standard
library functions used by the source (`strconv.ParseInt`, `strconv.ParseFloat`,
`encoding/json.MarshalIndent`, `fmt.Sprintf("%v", ...)`) are modelled
explicitly below, each with a doc comment stating the scope of the model.
-/

/-- The DynamoDB attribute value tagged union (`types.AttributeValue` of the
AWS SDK, the member types actually matched by the source).  The SDK type is an
open interface; `other` stands for any member the source's `switch` does not
recognize and sends to the `default` branch. -/
inductive AttributeValue where
  | S (value : String)
  | N (value : String)
  | BOOL (value : Bool)
  | NULL
  | B (value : List UInt8)
  | L (value : List AttributeValue)
  | M (value : List (String × AttributeValue))
  | SS (value : List String)
  | NS (value : List String)
  | BS (value : List (List UInt8))
  | other

mutual
/-- `formatAttributeValue` of `aws/dynamodb.go`: the display-string side of the
value codec.  `formatAVList` and `formatAVPairs` are the element walks of the
`L` and `M` cases (`val.Value` loops in the source). -/
def formatAttributeValue : AttributeValue → String
  | .S v => v
  | .N v => v
  | .B v => "<binary: " ++ toString v.length ++ " bytes>"
  | .SS v => "[" ++ String.intercalate ", " v ++ "]"
  | .NS v => "[" ++ String.intercalate ", " v ++ "]"
  | .BS v => "[" ++ String.intercalate ", " (v.map (fun b => "<binary: " ++ toString b.length ++ " bytes>")) ++ "]"
  | .L v => "[" ++ String.intercalate ", " (formatAVList v) ++ "]"
  | .M v => "\x7b" ++ String.intercalate ", " (formatAVPairs v) ++ "\x7d"
  | .NULL => "null"
  | .BOOL v => if v then "true" else "false"
  | .other => "unknown"

def formatAVList : List AttributeValue → List String
  | [] => []
  | a :: as => formatAttributeValue a :: formatAVList as

def formatAVPairs : List (String × AttributeValue) → List String
  | [] => []
  | (k, a) :: ps => (k ++ ": " ++ formatAttributeValue a) :: formatAVPairs ps
end

/-- Strips an optional leading `+`/`-`; returns (isNegative, remainder). -/
def stripSign : List Char → Bool × List Char
  | '+' :: r => (false, r)
  | '-' :: r => (true, r)
  | r => (false, r)

/-- Decimal value of a digit list. -/
def digitsVal (ds : List Char) : Nat := ds.foldl (fun a c => a * 10 + (c.toNat - 48)) 0

/-- Modelled from the Go standard library: `strconv.ParseInt(s, 10, 64)`.
Accepts an optional sign followed by one or more decimal digits (base 10 is
given explicitly, so no underscores and no base prefixes), and fails with
`ErrRange` — modelled as `none` — when the value does not fit in an `int64`. -/
def goParseInt (s : String) : Option Int :=
  let p := stripSign s.data
  if p.2.isEmpty ∨ ¬ p.2.all Char.isDigit then none
  else
    let v : Int := if p.1 then -(digitsVal p.2 : Int) else (digitsVal p.2 : Int)
    if -(2 ^ 63) ≤ v ∧ v ≤ 2 ^ 63 - 1 then some v else none

/-- Result of a successful `strconv.ParseFloat`: a finite value (held as the
exact rational value of the parsed text; IEEE-754 rounding to the nearest
`float64` is abstracted away), an infinity, or NaN. -/
inductive GoFloat where
  | finite (value : Rat)
  | inf (neg : Bool)
  | nan
deriving DecidableEq, Repr

def asciiLower (c : Char) : Char :=
  if 'A' ≤ c ∧ c ≤ 'Z' then Char.ofNat (c.toNat + 32) else c

/-- The special-value forms recognized by `strconv.ParseFloat`: optionally
signed `inf`/`infinity`, and unsigned `nan`, case-insensitively. -/
def parseSpecialFloat (cs : List Char) : Option GoFloat :=
  let p := stripSign cs
  let l := p.2.map asciiLower
  if l = "inf".data ∨ l = "infinity".data then some (.inf p.1)
  else if cs.map asciiLower = "nan".data then some .nan
  else none

def takeDigits (cs : List Char) : List Char × List Char := cs.span Char.isDigit

def isHexDigit (c : Char) : Bool :=
  c.isDigit ∨ ('a' ≤ c ∧ c ≤ 'f') ∨ ('A' ≤ c ∧ c ≤ 'F')

def takeHexDigits (cs : List Char) : List Char × List Char := cs.span isHexDigit

def hexDigitVal (c : Char) : Nat :=
  if c.isDigit then c.toNat - 48
  else if 'a' ≤ c ∧ c ≤ 'f' then c.toNat - 87
  else c.toNat - 55

def hexVal (ds : List Char) : Nat := ds.foldl (fun a c => a * 16 + hexDigitVal c) 0

/-- Exponent part after `e`/`E` (or `p`/`P`): optional sign then one or more
decimal digits, consuming the whole remainder. -/
def parseExpPart (cs : List Char) : Option Int :=
  let p := stripSign cs
  if p.2.isEmpty ∨ ¬ p.2.all Char.isDigit then none
  else some (if p.1 then -(digitsVal p.2 : Int) else (digitsVal p.2 : Int))

/-- Overflow threshold of `float64`: exact values `q` with
`|q| >= 2^1024 - 2^970` round to infinity, which `ParseFloat` reports as
`ErrRange`.  Written as a numeral because the elaborator cannot reduce the
power form; `maxFloatThreshold_eq` below certifies it. -/
def maxFloatThreshold : Nat := 179769313486231580793728971405303415079934132710037826936173778980444968292764750946649017977587207096330286416692887910946555547851940402630657488671505820681908902000708383676273854845817711531764475730270069855571366959622842914819860834936475292719074168444365510704342711559699508093042880177904174497792

/-- Underflow denominator scale `2^1075`: nonzero exact values `q` with
`|q| <= 2^-1075` round to zero, which `ParseFloat` reports as `ErrRange`.
Written as a numeral; `underflowScale_eq` below certifies it. -/
def underflowScale : Nat := 404804506614621236704990693437834614099113299528284236713802716054860679135990693783920767402874248990374155728633623822779617474771586953734026799881477019843034848553132722728933815484186432682479535356945490137124014966849385397236206711298319112681620113024717539104666829230461005064372655017292012526615415482186989568

/-- Range behaviour of `strconv.ParseFloat` on the exact value `num / den`
(a successful parse requires a nil error in the source, so an `ErrRange`
result — overflow to infinity or underflow to zero — is modelled as `none`;
the half-ULP boundary cases of IEEE-754 round-to-nearest-even are abstracted
into the two thresholds `2^1024 - 2^970` and `2^-1075`). -/
def floatRangeCheck (num : Int) (den : Nat) : Option GoFloat :=
  if num = 0 then some (.finite 0)
  else if maxFloatThreshold * den ≤ num.natAbs then none
  else if num.natAbs * underflowScale ≤ den then none
  else some (.finite (Rat.divInt num den))

/-- The exact value of a decimal float: `±mantissa * 10^(ex - fracLen)`,
range-checked. -/
def decFloatValue (neg : Bool) (mantissa fracLen : Nat) (ex : Int) : Option GoFloat :=
  let e : Int := ex - fracLen
  let num : Int := if neg then -(mantissa : Int) else (mantissa : Int)
  if 0 ≤ e then floatRangeCheck (num * (10 : Int) ^ e.toNat) 1
  else floatRangeCheck num ((10 : Nat) ^ (-e).toNat)

/-- Decimal mantissa with optional fraction and optional decimal exponent. -/
def parseDecFloat (neg : Bool) (cs : List Char) : Option GoFloat :=
  let ipr := takeDigits cs
  let fpr := match ipr.2 with
    | '.' :: r => takeDigits r
    | _ => ([], ipr.2)
  if ipr.1.isEmpty ∧ fpr.1.isEmpty then none
  else
    let expPart : Option Int := match fpr.2 with
      | [] => some 0
      | e :: r => if e = 'e' ∨ e = 'E' then parseExpPart r else none
    match expPart with
    | none => none
    | some ex => decFloatValue neg (digitsVal (ipr.1 ++ fpr.1)) fpr.1.length ex

/-- The exact value of a hexadecimal float: `±mantissa / 16^fracLen * 2^ex`,
range-checked. -/
def hexFloatValue (neg : Bool) (mantissa fracLen : Nat) (ex : Int) : Option GoFloat :=
  let num : Int := if neg then -(mantissa : Int) else (mantissa : Int)
  if 0 ≤ ex then floatRangeCheck (num * (2 : Int) ^ ex.toNat) ((16 : Nat) ^ fracLen)
  else floatRangeCheck num ((16 : Nat) ^ fracLen * (2 : Nat) ^ (-ex).toNat)

/-- Hexadecimal mantissa (after the `0x`/`0X`); Go requires the binary
`p`-exponent for hexadecimal floats. -/
def parseHexFloat (neg : Bool) (cs : List Char) : Option GoFloat :=
  let ipr := takeHexDigits cs
  let fpr := match ipr.2 with
    | '.' :: r => takeHexDigits r
    | _ => ([], ipr.2)
  if ipr.1.isEmpty ∧ fpr.1.isEmpty then none
  else
    match fpr.2 with
    | [] => none
    | p :: r =>
      if p = 'p' ∨ p = 'P' then
        match parseExpPart r with
        | none => none
        | some ex => hexFloatValue neg (hexVal (ipr.1 ++ fpr.1)) fpr.1.length ex
      else none

/-- Modelled from the Go standard library: `strconv.ParseFloat(s, 64)`,
success cases only (an `ErrRange` result is `none`, because the source checks
`err == nil`).  Accepts the special values, decimal floats and hexadecimal
floats of the Go floating-point grammar.  Digit-group underscores (accepted by
Go since 1.13) are not modelled; DynamoDB number strings never contain them. -/
def goParseFloat (s : String) : Option GoFloat :=
  match parseSpecialFloat s.data with
  | some g => some g
  | none =>
    let p := stripSign s.data
    match p.2 with
    | '0' :: x :: rest =>
      if x = 'x' ∨ x = 'X' then parseHexFloat p.1 rest
      else parseDecFloat p.1 p.2
    | _ => parseDecFloat p.1 p.2

/-- A Go `interface{}` value as produced by `attributeValueToInterface`:
strings, `int64`, `float64`, `bool`, `nil`, `[]interface\x7b\x7d`,
`map[string]interface\x7b\x7d`, and `[]string` (the dynamic type kept by the
`SS`/`NS`/`BS` cases, distinct from `[]interface\x7b\x7d`). -/
inductive NativeValue where
  | str (s : String)
  | int (n : Int)
  | float (f : GoFloat)
  | bool (b : Bool)
  | null
  | list (elems : List NativeValue)
  | map (entries : List (String × NativeValue))
  | strList (elems : List String)

mutual
/-- `attributeValueToInterface` of `aws/dynamodb.go`: the native-value side of
the value codec.  The `N` case tries `strconv.ParseInt` first, then
`strconv.ParseFloat`, and finally falls back to the original text. -/
def attributeValueToInterface : AttributeValue → NativeValue
  | .S v => .str v
  | .N v =>
    match goParseInt v with
    | some i => .int i
    | none =>
      match goParseFloat v with
      | some f => .float f
      | none => .str v
  | .BOOL v => .bool v
  | .NULL => .null
  | .L v => .list (avInterfaceList v)
  | .M v => .map (avInterfacePairs v)
  | .SS v => .strList v
  | .NS v => .strList v
  | .BS v => .strList (v.map (fun b => "<binary: " ++ toString b.length ++ " bytes>"))
  | .B v => .str ("<binary: " ++ toString v.length ++ " bytes>")
  | .other => .str "unknown"

def avInterfaceList : List AttributeValue → List NativeValue
  | [] => []
  | a :: as => attributeValueToInterface a :: avInterfaceList as

def avInterfacePairs : List (String × AttributeValue) → List (String × NativeValue)
  | [] => []
  | (k, a) :: ps => (k, attributeValueToInterface a) :: avInterfacePairs ps
end

/-- Discriminator: is this attribute value of the Number member type? -/
def isNumberAttr : AttributeValue → Bool
  | .N _ => true
  | _ => false

/-- Discriminator: is this attribute value of the String member type? -/
def isStringAttr : AttributeValue → Bool
  | .S _ => true
  | _ => false

/-- A value of the Go dynamic type `interface\x7b\x7d` as it occurs in the
`map[string]interface\x7b\x7d` continuation tokens handed between
`QueryResult.LastEvaluatedKey` and the `exclusiveStartKey` parameter:
a `string`, an `int64`, or any other dynamic type (which the re-encoding
switch of the source silently skips). -/
inductive GoValue where
  | str (s : String)
  | int (n : Int)
  | otherVal
deriving DecidableEq, Repr

/-- The `LastEvaluatedKey` conversion at the end of `Client.Query` /
`Client.Scan`: every key attribute is converted with `formatAttributeValue`
(so every stored token value is a display string). -/
def decodeLastKey (m : List (String × AttributeValue)) : List (String × GoValue) :=
  m.map (fun kv => (kv.1, GoValue.str (formatAttributeValue kv.2)))

/-- The `exclusiveStartKey` re-encoding at the start of `Client.Query` /
`Client.Scan`: a `string` becomes a String attribute, an `int64` becomes a
Number attribute via `strconv.FormatInt`, and any other dynamic type falls out
of the `switch` without assigning the key (the entry is dropped). -/
def encodeStartKey (m : List (String × GoValue)) : List (String × AttributeValue) :=
  m.filterMap (fun kv =>
    match kv.2 with
    | .str s => some (kv.1, AttributeValue.S s)
    | .int n => some (kv.1, AttributeValue.N (toString n))
    | .otherVal => none)

/-- The fields of `dynamodb.QueryInput` populated by `Client.Query` before the
network call is issued. -/
structure QueryInput where
  KeyConditionExpression : String
  ExpressionAttributeNames : List (String × String)
  ExpressionAttributeValues : List (String × AttributeValue)
  ExclusiveStartKey : Option (List (String × AttributeValue))
  Limit : Nat

/-- The condition-building part of `Client.Query` (everything before
`c.svc.Query`): binds the partition key with equality, appends the sort-key
fragment selected by `condition` when both a sort key name and value are
present, and re-encodes the exclusive start key.  The source has no error
return on this path — the built input is always handed to the backend. -/
def buildQueryInput (partitionKey partitionValue sortKey sortValue condition : String)
    (exclusiveStartKey : Option (List (String × GoValue))) : QueryInput :=
  let base : QueryInput :=
    { KeyConditionExpression := "#pk = :pk"
      ExpressionAttributeNames := [("#pk", partitionKey)]
      ExpressionAttributeValues := [(":pk", AttributeValue.S partitionValue)]
      ExclusiveStartKey := exclusiveStartKey.map encodeStartKey
      Limit := 15 }
  if sortKey ≠ "" ∧ sortValue ≠ "" then
    let expr :=
      match condition with
      | "=" => "#pk = :pk AND #sk = :sk"
      | "begins_with" => "#pk = :pk AND begins_with(#sk, :sk)"
      | "<" => "#pk = :pk AND #sk < :sk"
      | "<=" => "#pk = :pk AND #sk <= :sk"
      | ">" => "#pk = :pk AND #sk > :sk"
      | ">=" => "#pk = :pk AND #sk >= :sk"
      | "between" => "#pk = :pk AND #sk BETWEEN :sk AND :sk2"
      | _ => base.KeyConditionExpression
    { base with
      KeyConditionExpression := expr
      ExpressionAttributeNames := base.ExpressionAttributeNames ++ [("#sk", sortKey)]
      ExpressionAttributeValues := base.ExpressionAttributeValues ++ [(":sk", AttributeValue.S sortValue)] }
  else base

/-- `TableInfo` of `aws/dynamodb.go`. -/
structure TableInfo where
  Name : String
  Status : String
  ItemCount : Int
  SizeBytes : Int
  PartitionKey : String
  SortKey : String
  SchemaFields : List String
deriving DecidableEq, Repr

/-- One step of sorting the table list by `ItemCount` descending (the
`sort.Slice` call with `tables[i].ItemCount > tables[j].ItemCount`; the Go
sort is unstable, so only the resulting order relation and membership are
observable — any sort realizing them is a faithful model). -/
def insertByItemCount (t : TableInfo) : List TableInfo → List TableInfo
  | [] => [t]
  | u :: us => if u.ItemCount < t.ItemCount then t :: u :: us else u :: insertByItemCount t us

def sortByItemCount : List TableInfo → List TableInfo
  | [] => []
  | t :: ts => insertByItemCount t (sortByItemCount ts)

/-- `Client.ListTables`: enumerates the table names, describes each one
(`getTableInfo`, modelled as an abstract `String → Option TableInfo` where
`none` is a failed describe call — the source's `continue` branch), and sorts
the successfully described tables by item count descending. -/
def ListTables (tableNames : List String) (getTableInfo : String → Option TableInfo) :
    List TableInfo :=
  sortByItemCount (tableNames.filterMap getTableInfo)

/-- The `candidateFields` list of `createTableActionPage` in `main.go`. -/
def candidateFields : List String :=
  ["title", "Title", "name", "Name", "displayName", "description", "Description",
   "email", "Email"]

/-- The preview-field detection loop of `createTableActionPage`: walks the
candidate list over the keys of the first result item, skips key columns, and
breaks once two fields are collected. -/
def detectFieldsLoop (itemKeys : List String) (partitionKey sortKey : String) :
    List String → List String → List String
  | [], acc => acc
  | f :: fs, acc =>
    if itemKeys.contains f then
      if f ≠ partitionKey ∧ f ≠ sortKey then
        let acc' := acc ++ [f]
        if 2 ≤ acc'.length then acc'
        else detectFieldsLoop itemKeys partitionKey sortKey fs acc'
      else detectFieldsLoop itemKeys partitionKey sortKey fs acc
    else detectFieldsLoop itemKeys partitionKey sortKey fs acc

/-- `additionalFields` detection: the loop above started on `candidateFields`
with an empty accumulator (`itemKeys` are the attribute names of
`result.Items[0]`). -/
def detectAdditionalFields (itemKeys : List String) (partitionKey sortKey : String) :
    List String :=
  detectFieldsLoop itemKeys partitionKey sortKey candidateFields []

/-- A display item: attribute name to display string, as stored in
`QueryResult.Items`. -/
abbrev DisplayItem := List (String × String)

/-- A continuation token (`map[string]interface\x7b\x7d` of key attributes). -/
abbrev StartKey := List (String × GoValue)

/-- One fetched page as kept in the `pageHistory` of the results view of
`main.go`: its display items and the continuation token that produces the
following page. -/
structure QueryPage where
  items : List DisplayItem
  lastEvaluatedKey : Option StartKey
deriving DecidableEq, Repr

/-- The pagination state of one results view: the page history, the 1-based
`currentPage`, the displayed `result`, and a count of backend calls issued
(each `client.Query` / `client.Scan` invocation is one call). -/
structure ResultsState where
  pageHistory : List QueryPage
  currentPage : Nat
  result : QueryPage
  backendCalls : Nat
deriving DecidableEq, Repr

/-- The initial fetch of a results view: one backend call with no start key;
the result becomes page 1 and the whole history. -/
def firstLoad (fetch : Option StartKey → QueryPage) : ResultsState :=
  let r := fetch none
  { pageHistory := [r], currentPage := 1, result := r, backendCalls := 1 }

/-- The Ctrl+N handler of the results view (`main.go`): guarded by
`result.LastEvaluatedKey != nil`; fetches the next page from the current
page's token (always a backend call), increments `currentPage`, appends to
`pageHistory` only when the new index exceeds the history length, and displays
the freshly fetched page.  `fetch` is the backend (`client.Query` with the
frozen query parameters), modelled as a deterministic, error-free function. -/
def nextPage (fetch : Option StartKey → QueryPage) (s : ResultsState) : ResultsState :=
  match s.result.lastEvaluatedKey with
  | none => s
  | some key =>
    let nextResult := fetch (some key)
    let cp := s.currentPage + 1
    { pageHistory :=
        if s.pageHistory.length < cp then s.pageHistory ++ [nextResult] else s.pageHistory
      currentPage := cp
      result := nextResult
      backendCalls := s.backendCalls + 1 }

/-- The Ctrl+B handler of the results view (`main.go`): when `currentPage > 1`
decrements it and redisplays `pageHistory[currentPage-1]` — no backend call.
(The source's index is always in range; `getD` supplies an arbitrary default.) -/
def prevPage (s : ResultsState) : ResultsState :=
  if 1 < s.currentPage then
    let cp := s.currentPage - 1
    { s with currentPage := cp, result := s.pageHistory.getD (cp - 1) s.result }
  else s

/-- The page the backend produces after `k` forward steps: page 0 is the
initial fetch (no start key), page `k+1` is fetched from page `k`'s token
(when that token is absent the sequence is frozen — such steps never occur
under the hypotheses below). -/
def nthPage (fetch : Option StartKey → QueryPage) : Nat → QueryPage
  | 0 => fetch none
  | k + 1 =>
    match (nthPage fetch k).lastEvaluatedKey with
    | some key => fetch (some key)
    | none => nthPage fetch k

def hexDigitChar (n : Nat) : Char :=
  if n < 10 then Char.ofNat (48 + n) else Char.ofNat (87 + (n - 10))

/-- Character escaping of Go's `encoding/json` encoder with its default HTML
escaping: quote and backslash are backslash-escaped; newline, CR and tab get
their named escapes; other control characters, the HTML characters `<` `>`
`&`, and the line separators U+2028/U+2029 are emitted as backslash-u hex
escapes. -/
def jsonEscapeChar (c : Char) : String :=
  if c = '"' then "\\\""
  else if c = '\\' then "\\\\"
  else if c = '\n' then "\\n"
  else if c = '\r' then "\\r"
  else if c = '\t' then "\\t"
  else if c = '<' then "\\u003c"
  else if c = '>' then "\\u003e"
  else if c = '&' then "\\u0026"
  else if c.toNat < 32 then
    "\\u00" ++ String.mk [hexDigitChar (c.toNat / 16), hexDigitChar (c.toNat % 16)]
  else if c.toNat = 8232 then "\\u2028"
  else if c.toNat = 8233 then "\\u2029"
  else String.singleton c

/-- A JSON string literal for `s`. -/
def jsonQuote (s : String) : String :=
  "\"" ++ String.join (s.data.map jsonEscapeChar) ++ "\""

/-- `depth` levels of the 4-space indent unit of
`json.MarshalIndent(v, "", "    ")`. -/
def jsonIndentPad (depth : Nat) : String := String.mk (List.replicate (4 * depth) ' ')

/-- Rendering of a Go `float64` (`%v` / JSON): abstracted to a rendering of
the exact value held by the model, since no claim concerns float output
(Go renders the shortest decimal that round-trips the binary double, and
`json.Marshal` errors on infinities and NaN — both outside this model). -/
def formatGoFloat : GoFloat → String
  | .finite q => toString q
  | .inf negative => if negative then "-Inf" else "+Inf"
  | .nan => "NaN"

/-- Go's `<` on strings: byte-wise lexicographic comparison — identical to
code-point lexicographic order, since UTF-8 preserves code-point order. -/
def goStringLess : List Char → List Char → Bool
  | [], [] => false
  | [], _ :: _ => true
  | _ :: _, [] => false
  | a :: as, b :: bs =>
    if a.toNat < b.toNat then true
    else if b.toNat < a.toNat then false
    else goStringLess as bs

/-- Ascending insertion by key under Go's string order. -/
def insertRenderedPair (kv : String × String) : List (String × String) → List (String × String)
  | [] => [kv]
  | u :: us =>
    if goStringLess kv.1.data u.1.data then kv :: u :: us else u :: insertRenderedPair kv us

/-- `encoding/json` marshals Go maps with their keys sorted ascending. -/
def sortRenderedPairs : List (String × String) → List (String × String)
  | [] => []
  | kv :: rest => insertRenderedPair kv (sortRenderedPairs rest)

mutual
/-- Modelled from the Go standard library: `json.MarshalIndent(v, "", "    ")`
applied to a native value at nesting level `depth` — objects and arrays open
on the current line, put every member on its own line one indent level deeper
(object members as `"key": value`, keys sorted ascending), and close on a line
indented to the current level; empty objects and arrays stay compact.
Rendering a map walks its entries element-wise, so sorting the rendered
entries equals rendering the sorted entries (keys are unique). -/
def marshalIndentValue : NativeValue → Nat → String
  | .null, _ => "null"
  | .bool b, _ => if b then "true" else "false"
  | .int n, _ => toString n
  | .float f, _ => formatGoFloat f
  | .str s, _ => jsonQuote s
  | .strList [], _ => "[]"
  | .strList (x :: xs), depth =>
      "[\n" ++
        String.intercalate ",\n"
          (((x :: xs).map (fun e => jsonIndentPad (depth + 1) ++ jsonQuote e))) ++
        "\n" ++ jsonIndentPad depth ++ "]"
  | .list [], _ => "[]"
  | .list (x :: xs), depth =>
      "[\n" ++
        String.intercalate ",\n"
          ((marshalIndentList (x :: xs) (depth + 1)).map
            (fun r => jsonIndentPad (depth + 1) ++ r)) ++
        "\n" ++ jsonIndentPad depth ++ "]"
  | .map [], _ => "\x7b\x7d"
  | .map (kv :: kvs), depth =>
      "\x7b\n" ++
        String.intercalate ",\n"
          ((sortRenderedPairs (marshalIndentEntries (kv :: kvs) (depth + 1))).map
            (fun e => jsonIndentPad (depth + 1) ++ jsonQuote e.1 ++ ": " ++ e.2)) ++
        "\n" ++ jsonIndentPad depth ++ "\x7d"

def marshalIndentList : List NativeValue → Nat → List String
  | [], _ => []
  | x :: xs, depth => marshalIndentValue x depth :: marshalIndentList xs depth

def marshalIndentEntries : List (String × NativeValue) → Nat → List (String × String)
  | [], _ => []
  | (k, v) :: kvs, depth => (k, marshalIndentValue v depth) :: marshalIndentEntries kvs depth
end

/-- `json.MarshalIndent(rawItem, "", "    ")` on a raw item (a
`map[string]interface\x7b\x7d`). -/
def jsonMarshalIndent (rawItem : List (String × NativeValue)) : String :=
  marshalIndentValue (.map rawItem) 0

mutual
/-- Modelled from the Go standard library: `fmt.Sprintf("%v", x)` on the
dynamic types a raw item can hold (strings verbatim, integers in decimal,
`nil` as `<nil>`, slices space-separated in brackets, maps as
`map[k:v ...]` with sorted keys; floats abstracted as in `formatGoFloat`). -/
def goFmtNative : NativeValue → String
  | .str s => s
  | .int n => toString n
  | .bool b => if b then "true" else "false"
  | .null => "<nil>"
  | .float f => formatGoFloat f
  | .strList xs => "[" ++ String.intercalate " " xs ++ "]"
  | .list xs => "[" ++ String.intercalate " " (goFmtNativeList xs) ++ "]"
  | .map kvs =>
      "map[" ++
        String.intercalate " "
          ((sortRenderedPairs (goFmtNativePairs kvs)).map (fun e => e.1 ++ ":" ++ e.2)) ++
      "]"

def goFmtNativeList : List NativeValue → List String
  | [] => []
  | x :: xs => goFmtNative x :: goFmtNativeList xs

def goFmtNativePairs : List (String × NativeValue) → List (String × String)
  | [] => []
  | (k, v) :: kvs => (k, goFmtNative v) :: goFmtNativePairs kvs
end

/-- Association-list lookup (a Go map read `m[k]` with its `ok` flag). -/
def lookupVal {α : Type} : List (String × α) → String → Option α
  | [], _ => none
  | kv :: rest, k => if kv.1 = k then some kv.2 else lookupVal rest k

/-- `strings.ReplaceAll` for a single-character pattern. -/
def replaceChar (s : String) (a b : Char) : String :=
  String.mk (s.data.map (fun c => if c = a then b else c))

/-- The filename cleaning of `saveItemAsJSON`: the three sequential
`strings.ReplaceAll` calls replacing `/`, space and `:` with `_`. -/
def cleanFilename (s : String) : String :=
  replaceChar (replaceChar (replaceChar s '/' '_') ' ' '_') ':' '_'

/-- The filename construction of `saveItemAsJSON` in `main.go`: `%v` of the raw
item's partition-key value, `_` plus `%v` of its sort-key value when the table
has a sort key, cleaned, suffixed `.json` (a missing key reads as `nil`). -/
def saveItemFilename (rawItem : List (String × NativeValue))
    (PartitionKey SortKey : String) : String :=
  let pkValue := goFmtNative ((lookupVal rawItem PartitionKey).getD .null)
  let base :=
    if SortKey ≠ "" then
      pkValue ++ "_" ++ goFmtNative ((lookupVal rawItem SortKey).getD .null)
    else pkValue
  cleanFilename base ++ ".json"

/-- Deleting a key from an item map (`delete(item, sf)`; keys are unique, so
removing every entry with that key models the Go `delete`). -/
def eraseKey (item : DisplayItem) (k : String) : DisplayItem :=
  item.filter (fun kv => kv.1 ≠ k)

/-- The schema-field pass of the item-detail rendering in
`createTableActionPage`: for each schema field present in the item map, a
(field, value) row is rendered and the field is deleted from the map.
Returns the rendered schema rows and the item map after the deletions. -/
def renderSchemaLoop (item : DisplayItem) : List String → DisplayItem × DisplayItem
  | [] => ([], item)
  | sf :: rest =>
    match lookupVal item sf with
    | some v =>
      let next := renderSchemaLoop (eraseKey item sf) rest
      ((sf, v) :: next.1, next.2)
    | none => renderSchemaLoop item rest

/-- The full item-detail rendering: schema-field rows first, then every entry
still left in the (now pruned) item map.  Returns the rendered rows and the
pruned item map — which in the source is the same map object the results view
and the page history keep holding. -/
def renderItemDetail (SchemaFields : List String) (item : DisplayItem) :
    List (String × String) × DisplayItem :=
  let p := renderSchemaLoop item SchemaFields
  (p.1 ++ p.2, p.2)

/-- Opening the item-detail view for row `row` (1-based) of the results view:
renders the selected item, which mutates the item map in place.  Because
`pageHistory` stores the same `items` slice of maps the displayed `result`
holds, the pruned map replaces the item both in the displayed page and in the
history entry of the current page (the model is stated for states in which
the displayed page is its history entry — the configuration the source
creates on the initial load and on every Ctrl+B). -/
def openItemDetail (SchemaFields : List String) (s : ResultsState) (row : Nat) :
    ResultsState × List (String × String) :=
  if 1 ≤ row ∧ row ≤ s.result.items.length then
    match (s.result.items.get? (row - 1)).map (renderItemDetail SchemaFields) with
    | some rendered =>
      let newResult :=
        { s.result with items := s.result.items.set (row - 1) rendered.2 }
      ({ s with
          result := newResult
          pageHistory := s.pageHistory.set (s.currentPage - 1) newResult },
        rendered.1)
    | none => (s, [])
  else (s, [])

/-- The attribute item of the export scenario:
`\x7bid:"u1", ts:"2024-01-01", title:"Hello", tags:["a","b"]\x7d`. -/
def scenarioAttrItem : List (String × AttributeValue) :=
  [("id", .S "u1"), ("ts", .S "2024-01-01"), ("title", .S "Hello"),
   ("tags", .L [.S "a", .S "b"])]

/-- Its raw item, derived exactly as `Client.Query` builds `RawItems` (one
`attributeValueToInterface` per attribute). -/
def scenarioRawItem : List (String × NativeValue) := avInterfacePairs scenarioAttrItem

/-- A concrete backend with exactly two pages: the initial fetch returns one
item and a continuation token, any fetch from a token returns the final page
with no token. -/
def twoPageFetch : Option StartKey → QueryPage
  | none =>
    { items := [[("id", "u1")]], lastEvaluatedKey := some [("id", GoValue.str "u1")] }
  | some _ => { items := [[("id", "u2")]], lastEvaluatedKey := none }

/-- A concrete backend whose first page already carries no continuation
token. -/
def haltedFetch : Option StartKey → QueryPage :=
  fun _ => { items := [], lastEvaluatedKey := none }

/-- A display item with one schema field (`id`) and one plain field. -/
def detailDemoItem : DisplayItem := [("id", "u1"), ("x", "2")]

/-- A concrete backend returning a single page holding `detailDemoItem`. -/
def detailDemoFetch : Option StartKey → QueryPage :=
  fun _ => { items := [detailDemoItem], lastEvaluatedKey := none }

theorem maxFloatThreshold_eq : maxFloatThreshold = 2 ^ 1024 - 2 ^ 970 := by
  have h1 : (2 : Nat) ^ 1024 = ((2 : Nat) ^ 128) ^ 8 := (pow_mul 2 128 8).symm
  have h2 : (2 : Nat) ^ 970 = ((2 : Nat) ^ 97) ^ 10 := (pow_mul 2 97 10).symm
  rw [h1, h2]
  norm_num [maxFloatThreshold]

theorem underflowScale_eq : underflowScale = 2 ^ 1075 := by
  have h1 : (2 : Nat) ^ 1075 = ((2 : Nat) ^ 215) ^ 5 := (pow_mul 2 215 5).symm
  rw [h1]
  norm_num [underflowScale]

theorem formatAVList_eq_map (xs : List AttributeValue) :
    formatAVList xs = xs.map formatAttributeValue := by
  induction xs with
  | nil => rfl
  | cons a as ih => simp [formatAVList, ih]

theorem formatAVPairs_eq_map (ps : List (String × AttributeValue)) :
    formatAVPairs ps = ps.map (fun kv => kv.1 ++ ": " ++ formatAttributeValue kv.2) := by
  induction ps with
  | nil => rfl
  | cons p ps ih => cases p; simp [formatAVPairs, ih]

/-- C6: `toDisplayString` is total on `AttributeValue`: String, Number and
Boolean render directly, Binary renders as `<binary: N bytes>` with N the byte
length, Null renders as the literal token `null`, List and Map render
recursively with `[...]` and `\x7bk: v, ...\x7d` bracketing comma-separated,
the set variants render as bracketed comma-joined member lists, and every
unrecognized variant maps to `"unknown"`.  (Totality is inherent: the model is
a Lean function covering every constructor.) -/
theorem formatAttributeValue_characterization :
    (∀ s, formatAttributeValue (.S s) = s) ∧
    (∀ s, formatAttributeValue (.N s) = s) ∧
    (∀ b, formatAttributeValue (.BOOL b) = if b then "true" else "false") ∧
    (∀ bs, formatAttributeValue (.B bs) = "<binary: " ++ toString bs.length ++ " bytes>") ∧
    formatAttributeValue .NULL = "null" ∧
    (∀ xs, formatAttributeValue (.L xs)
        = "[" ++ String.intercalate ", " (xs.map formatAttributeValue) ++ "]") ∧
    (∀ ps, formatAttributeValue (.M ps)
        = "\x7b" ++ String.intercalate ", "
            (ps.map (fun kv => kv.1 ++ ": " ++ formatAttributeValue kv.2)) ++ "\x7d") ∧
    (∀ ss, formatAttributeValue (.SS ss) = "[" ++ String.intercalate ", " ss ++ "]") ∧
    (∀ ns, formatAttributeValue (.NS ns) = "[" ++ String.intercalate ", " ns ++ "]") ∧
    (∀ bss, formatAttributeValue (.BS bss)
        = "[" ++ String.intercalate ", "
            (bss.map (fun b => "<binary: " ++ toString b.length ++ " bytes>")) ++ "]") ∧
    formatAttributeValue .other = "unknown" := by
  refine ⟨fun s => rfl, fun s => rfl, fun b => rfl, fun bs => rfl, rfl, ?_, ?_,
    fun ss => rfl, fun ns => rfl, fun bss => rfl, rfl⟩
  · intro xs
    simp [formatAttributeValue, formatAVList_eq_map]
  · intro ps
    simp [formatAttributeValue, formatAVPairs_eq_map]

/-- C1 (the claim fails on the code): with operator `between` and a single
sort-key value, `Client.Query` does not report any error — the condition
building has no error path at all — and instead builds the key condition
`#pk = :pk AND #sk BETWEEN :sk AND :sk2` whose placeholder `:sk2` is bound by
nothing (only `:pk` and `:sk` appear in `ExpressionAttributeValues`), and this
malformed input is what gets issued to the backend. -/
theorem between_single_value_issues_malformed_condition :
    (buildQueryInput "id" "u1" "ts" "2024-01-01" "between" none).KeyConditionExpression
      = "#pk = :pk AND #sk BETWEEN :sk AND :sk2" ∧
    ((buildQueryInput "id" "u1" "ts" "2024-01-01" "between" none).ExpressionAttributeValues.map
        Prod.fst) = [":pk", ":sk"] ∧
    (((buildQueryInput "id" "u1" "ts" "2024-01-01" "between" none).ExpressionAttributeValues.map
        Prod.fst).contains ":sk2") = false := by
  exact ⟨by decide, by decide, by decide⟩

/-- C3 counterexample: a continuation token whose key attribute is a Number
does not round-trip: the `LastEvaluatedKey` conversion renders it to its
display string, and the `exclusiveStartKey` re-encoding turns that string
into a String attribute — the original Number member type is lost. -/
theorem token_roundtrip_changes_number_attr_type :
    decodeLastKey [("id", AttributeValue.N "42")] = [("id", GoValue.str "42")] ∧
    encodeStartKey [("id", GoValue.str "42")] = [("id", AttributeValue.S "42")] ∧
    isNumberAttr (AttributeValue.N "42") = true ∧
    isNumberAttr (AttributeValue.S "42") = false :=
  ⟨rfl, rfl, rfl, rfl⟩

/-- C3 amended: the token is not passed through unchanged attribute-wise;
every key attribute is re-encoded as a String attribute holding the display
string of the original value, so the round trip is the identity exactly on
tokens all of whose attributes are String-typed. -/
theorem token_roundtrip_reencodes_display_strings :
    (∀ m : List (String × AttributeValue),
      encodeStartKey (decodeLastKey m)
        = m.map (fun kv => (kv.1, AttributeValue.S (formatAttributeValue kv.2)))) ∧
    (∀ m : List (String × AttributeValue),
      (∀ kv ∈ m, isStringAttr kv.2 = true) → encodeStartKey (decodeLastKey m) = m) := by
  have h1 : ∀ m : List (String × AttributeValue),
      encodeStartKey (decodeLastKey m)
        = m.map (fun kv => (kv.1, AttributeValue.S (formatAttributeValue kv.2))) := by
    intro m
    induction m with
    | nil => rfl
    | cons kv rest ih =>
      cases kv with
      | mk k v =>
        simpa [decodeLastKey, encodeStartKey, List.filterMap_cons] using ih
  refine ⟨h1, fun m hm => ?_⟩
  rw [h1]
  induction m with
  | nil => rfl
  | cons kv rest ih =>
    have hs := hm kv (by simp)
    have hrest := ih (fun kv h => hm kv (by simp [h]))
    cases kv with
    | mk k v => cases v <;> simp_all [isStringAttr, formatAttributeValue]

/-- C3 amended, witness: a String-typed token round-trips unchanged. -/
theorem token_roundtrip_reencodes_display_strings_witness :
    encodeStartKey (decodeLastKey [("id", AttributeValue.S "u1")])
      = [("id", AttributeValue.S "u1")] :=
  token_roundtrip_reencodes_display_strings.2 [("id", AttributeValue.S "u1")] (by decide)

/-- C8 counterexample: the preview-field detection also selects capitalized
variants — an item whose only candidate attribute is `Title` gets preview
column `Title`, which is not in the claimed five-name preference list
`title/name/displayName/description/email`. -/
theorem preview_fields_outside_claimed_list :
    detectAdditionalFields ["id", "Title"] "id" "" = ["Title"] ∧
    ((["title", "name", "displayName", "description", "email"] : List String).contains
        "Title") = false :=
  ⟨rfl, rfl⟩

theorem detectFieldsLoop_eq_filter_take (itemKeys : List String) (pk sk : String)
    (cs : List String) :
    (detectFieldsLoop itemKeys pk sk cs []
        = (cs.filter
            (fun f => itemKeys.contains f && !(f == pk) && !(f == sk))).take 2) ∧
    (∀ a, detectFieldsLoop itemKeys pk sk cs [a]
        = a :: (cs.filter
            (fun f => itemKeys.contains f && !(f == pk) && !(f == sk))).take 1) := by
  induction cs with
  | nil => exact ⟨rfl, fun a => rfl⟩
  | cons f fs ih =>
    have hsplit : ∀ acc : List String,
        detectFieldsLoop itemKeys pk sk (f :: fs) acc
          = if itemKeys.contains f then
              if f ≠ pk ∧ f ≠ sk then
                if 2 ≤ (acc ++ [f]).length then acc ++ [f]
                else detectFieldsLoop itemKeys pk sk fs (acc ++ [f])
              else detectFieldsLoop itemKeys pk sk fs acc
            else detectFieldsLoop itemKeys pk sk fs acc := fun acc => rfl
    by_cases hmem : itemKeys.contains f
    · by_cases hkeys : f ≠ pk ∧ f ≠ sk
      · have hfilter : (f :: fs).filter
            (fun f => itemKeys.contains f && !(f == pk) && !(f == sk))
            = f :: fs.filter (fun f => itemKeys.contains f && !(f == pk) && !(f == sk)) := by
          rw [List.filter_cons, if_pos]
          simp only [hmem, Bool.true_and, Bool.and_eq_true, Bool.not_eq_true',
            beq_eq_false_iff_ne]
          exact hkeys
        constructor
        · rw [hsplit, if_pos hmem, if_pos hkeys, if_neg (by simp), List.nil_append,
            hfilter, ih.2 f]
          rfl
        · intro a
          rw [hsplit, if_pos hmem, if_pos hkeys, if_pos (by simp), hfilter]
          rfl
      · have hfilter : (f :: fs).filter
            (fun f => itemKeys.contains f && !(f == pk) && !(f == sk))
            = fs.filter (fun f => itemKeys.contains f && !(f == pk) && !(f == sk)) := by
          rw [List.filter_cons, if_neg]
          simp only [hmem, Bool.true_and, Bool.and_eq_true, Bool.not_eq_true',
            beq_eq_false_iff_ne]
          exact hkeys
        exact ⟨by rw [hsplit, if_pos hmem, if_neg hkeys, hfilter, ih.1],
          fun a => by rw [hsplit, if_pos hmem, if_neg hkeys, hfilter, ih.2 a]⟩
    · have hfilter : (f :: fs).filter
          (fun f => itemKeys.contains f && !(f == pk) && !(f == sk))
          = fs.filter (fun f => itemKeys.contains f && !(f == pk) && !(f == sk)) := by
        rw [List.filter_cons, if_neg]
        simp only [Bool.and_eq_true]
        intro h
        exact hmem h.1.1
      exact ⟨by rw [hsplit, if_neg hmem, hfilter, ih.1],
        fun a => by rw [hsplit, if_neg hmem, hfilter, ih.2 a]⟩

/-- C8 amended: the preview columns are the first two non-key hits of the
nine-name candidate list `title/Title/name/Name/displayName/description/`
`Description/email/Email`, scanned in that order with case-sensitive exact
matches against the first item's attribute names; in particular an item with
`name` and `email` (and no `title`/`description` variant) selects exactly
`name` then `email`. -/
theorem preview_fields_characterization :
    (∀ (itemKeys : List String) (pk sk : String),
      detectAdditionalFields itemKeys pk sk
        = (candidateFields.filter
            (fun f => itemKeys.contains f && !(f == pk) && !(f == sk))).take 2) ∧
    detectAdditionalFields ["id", "name", "email"] "id" "" = ["name", "email"] := by
  refine ⟨fun itemKeys pk sk => ?_, rfl⟩
  exact (detectFieldsLoop_eq_filter_take itemKeys pk sk candidateFields).1

/-- C5: `toNative` on a Number attribute attempts the integer parse first,
then the floating-point parse, and otherwise returns the original text:
`"42"` maps to the native integer `42`, `"3.14"` maps to the native float
`3.14` (the exact value 157/50 — IEEE rounding is abstracted in the model),
and malformed text such as `"abc"` maps to that text itself; the conversion
is a total function of the attribute value and never raises. -/
theorem number_conversion_int_then_float_then_text :
    attributeValueToInterface (.N "42") = .int 42 ∧
    attributeValueToInterface (.N "3.14") = .float (.finite (Rat.divInt 157 50)) ∧
    attributeValueToInterface (.N "abc") = .str "abc" ∧
    (∀ s n, goParseInt s = some n → attributeValueToInterface (.N s) = .int n) ∧
    (∀ s f, goParseInt s = none → goParseFloat s = some f →
        attributeValueToInterface (.N s) = .float f) ∧
    (∀ s, goParseInt s = none → goParseFloat s = none →
        attributeValueToInterface (.N s) = .str s) := by
  refine ⟨rfl, rfl, rfl, ?_, ?_, ?_⟩
  · intro s n h
    simp [attributeValueToInterface, h]
  · intro s f h1 h2
    simp [attributeValueToInterface, h1, h2]
  · intro s h1 h2
    simp [attributeValueToInterface, h1, h2]

/-- C5 witness: the three conditional clauses of the theorem applied at the
concrete inputs `"7"`, `"2.5"` and `"x"`. -/
theorem number_conversion_int_then_float_then_text_witness :
    attributeValueToInterface (.N "7") = .int 7 ∧
    attributeValueToInterface (.N "2.5") = .float (.finite (Rat.divInt 5 2)) ∧
    attributeValueToInterface (.N "x") = .str "x" :=
  ⟨number_conversion_int_then_float_then_text.2.2.2.1 "7" 7 (by decide),
   number_conversion_int_then_float_then_text.2.2.2.2.1 "2.5" (.finite (Rat.divInt 5 2))
     (by decide) (by decide),
   number_conversion_int_then_float_then_text.2.2.2.2.2 "x" (by decide) (by decide)⟩

theorem insertByItemCount_perm (t : TableInfo) (l : List TableInfo) :
    (insertByItemCount t l).Perm (t :: l) := by
  induction l with
  | nil => exact List.Perm.refl _
  | cons u us ih =>
    by_cases h : u.ItemCount < t.ItemCount
    · simp [insertByItemCount, h]
    · rw [insertByItemCount, if_neg h]
      exact (ih.cons u).trans (List.Perm.swap t u us)

theorem sortByItemCount_perm (l : List TableInfo) : (sortByItemCount l).Perm l := by
  induction l with
  | nil => exact List.Perm.refl _
  | cons t ts ih =>
    exact (insertByItemCount_perm t (sortByItemCount ts)).trans (ih.cons t)

theorem insertByItemCount_pairwise (t : TableInfo) (l : List TableInfo)
    (h : l.Pairwise (fun a b => b.ItemCount ≤ a.ItemCount)) :
    (insertByItemCount t l).Pairwise (fun a b => b.ItemCount ≤ a.ItemCount) := by
  induction l with
  | nil => simp [insertByItemCount]
  | cons u us ih =>
    rw [List.pairwise_cons] at h
    by_cases hlt : u.ItemCount < t.ItemCount
    · rw [insertByItemCount, if_pos hlt, List.pairwise_cons]
      refine ⟨fun w hw => ?_, List.pairwise_cons.mpr h⟩
      rcases List.mem_cons.mp hw with hwu | hwus
      · exact hwu ▸ le_of_lt hlt
      · exact le_trans (h.1 w hwus) (le_of_lt hlt)
    · rw [insertByItemCount, if_neg hlt, List.pairwise_cons]
      refine ⟨fun w hw => ?_, ih h.2⟩
      rcases List.mem_cons.mp ((insertByItemCount_perm t us).mem_iff.mp hw) with hwt | hwus
      · exact hwt ▸ le_of_not_lt hlt
      · exact h.1 w hwus

theorem sortByItemCount_pairwise (l : List TableInfo) :
    (sortByItemCount l).Pairwise (fun a b => b.ItemCount ≤ a.ItemCount) := by
  induction l with
  | nil => simp [sortByItemCount]
  | cons t ts ih => exact insertByItemCount_pairwise t _ ih

/-- C7: `ListTables` describes every enumerated table name, silently omits
exactly those whose describe call fails (the result is a permutation of the
successfully described tables — nothing else is lost or added), and returns
them sorted by item count descending. -/
theorem listTables_omits_failures_and_sorts_desc :
    ∀ (tableNames : List String) (describeOutcome : String → Option TableInfo),
      (ListTables tableNames describeOutcome).Perm (tableNames.filterMap describeOutcome) ∧
      (ListTables tableNames describeOutcome).Pairwise
        (fun a b => b.ItemCount ≤ a.ItemCount) :=
  fun _ _ => ⟨sortByItemCount_perm _, sortByItemCount_pairwise _⟩

theorem nextPage_of_no_token {fetch : Option StartKey → QueryPage} {s : ResultsState}
    (h : s.result.lastEvaluatedKey = none) : nextPage fetch s = s := by
  rw [nextPage, h]

/-- C4: once the fetched page's continuation token is absent, Ctrl+N is a
no-op: the whole pagination state — page history (hence its length), current
page index, displayed page and backend-call count — is untouched by any
number of further next-page inputs. -/
theorem next_after_token_absent_is_noop :
    ∀ (fetch : Option StartKey → QueryPage) (s : ResultsState) (m : Nat),
      s.result.lastEvaluatedKey = none → (nextPage fetch)^[m] s = s := by
  intro fetch s m h
  induction m with
  | zero => rfl
  | succ k ih => rw [Function.iterate_succ_apply, nextPage_of_no_token h, ih]

/-- C4 witness: on a backend whose first page has no token, three further
next-page inputs leave the initial state unchanged. -/
theorem next_after_token_absent_is_noop_witness :
    (nextPage haltedFetch)^[3] (firstLoad haltedFetch) = firstLoad haltedFetch :=
  next_after_token_absent_is_noop haltedFetch (firstLoad haltedFetch) 3 rfl

/-- C2 counterexample: replaying `next()` after `previous()` does issue a
backend call.  On a deterministic two-page backend the initial load plus one
`next()` make 2 backend calls and a 2-page history; `previous()` adds none;
but the replaying `next()` raises the call count to 3 even though the history
already holds the successor page — refuting "zero additional backend calls
during the replay" and "returns the stored page without a network request". -/
theorem replayed_next_issues_backend_call :
    (nextPage twoPageFetch (firstLoad twoPageFetch)).backendCalls = 2 ∧
    (nextPage twoPageFetch (firstLoad twoPageFetch)).pageHistory.length = 2 ∧
    (prevPage (nextPage twoPageFetch (firstLoad twoPageFetch))).backendCalls = 2 ∧
    (nextPage twoPageFetch
        (prevPage (nextPage twoPageFetch (firstLoad twoPageFetch)))).backendCalls = 3 :=
  ⟨rfl, rfl, rfl, rfl⟩

theorem forward_run (fetch : Option StartKey → QueryPage) :
    ∀ k, (∀ i, i < k → ((nthPage fetch i).lastEvaluatedKey).isSome = true) →
      (nextPage fetch)^[k] (firstLoad fetch)
        = { pageHistory := (List.range (k + 1)).map (nthPage fetch)
            currentPage := k + 1
            result := nthPage fetch k
            backendCalls := k + 1 } := by
  intro k
  induction k with
  | zero =>
    intro _
    simp [firstLoad, nthPage, List.range_succ]
  | succ k ih =>
    intro h
    obtain ⟨key, hkey⟩ := Option.isSome_iff_exists.mp (h k (Nat.lt_succ_self k))
    have hfetch : fetch (some key) = nthPage fetch (k + 1) := by
      rw [nthPage, hkey]
    rw [Function.iterate_succ_apply', ih (fun i hi => h i (Nat.lt_succ_of_lt hi))]
    simp only [nextPage, hkey, hfetch]
    have hlen : ((List.range (k + 1)).map (nthPage fetch)).length < k + 1 + 1 := by
      simp
    rw [if_pos hlen]
    have hrange : (List.range (k + 1 + 1)).map (nthPage fetch)
        = (List.range (k + 1)).map (nthPage fetch) ++ [nthPage fetch (k + 1)] := by
      rw [List.range_succ, List.map_append, List.map_cons, List.map_nil]
    rw [hrange]

theorem backward_run (fetch : Option StartKey → QueryPage) (k : Nat) :
    ∀ j, j ≤ k →
      prevPage^[j]
          ({ pageHistory := (List.range (k + 1)).map (nthPage fetch)
             currentPage := k + 1
             result := nthPage fetch k
             backendCalls := k + 1 } : ResultsState)
        = { pageHistory := (List.range (k + 1)).map (nthPage fetch)
            currentPage := k + 1 - j
            result := nthPage fetch (k - j)
            backendCalls := k + 1 } := by
  intro j
  induction j with
  | zero => intro _; simp
  | succ j ih =>
    intro hj
    have hjk : j ≤ k := Nat.le_of_succ_le hj
    rw [Function.iterate_succ_apply', ih hjk]
    have hgt : 1 < k + 1 - j := by omega
    rw [prevPage, if_pos hgt]
    have hidx : k + 1 - j - 1 - 1 < ((List.range (k + 1)).map (nthPage fetch)).length := by
      simp; omega
    have hgetD : ((List.range (k + 1)).map (nthPage fetch)).getD (k + 1 - j - 1 - 1)
        (nthPage fetch (k - j)) = nthPage fetch (k - (j + 1)) := by
      rw [List.getD_eq_getElem _ _ hidx, List.getElem_map, List.getElem_range]
      congr 1
      omega
    have hcp : k + 1 - j - 1 = k + 1 - (j + 1) := by omega
    simp only [hgetD]
    simp only [hcp]

theorem replay_run (fetch : Option StartKey → QueryPage) (k : Nat)
    (h : ∀ i, i < k → ((nthPage fetch i).lastEvaluatedKey).isSome = true) :
    ∀ j, j ≤ k →
      (nextPage fetch)^[j]
          ({ pageHistory := (List.range (k + 1)).map (nthPage fetch)
             currentPage := 1
             result := nthPage fetch 0
             backendCalls := k + 1 } : ResultsState)
        = { pageHistory := (List.range (k + 1)).map (nthPage fetch)
            currentPage := 1 + j
            result := nthPage fetch j
            backendCalls := k + 1 + j } := by
  intro j
  induction j with
  | zero => intro _; simp
  | succ j ih =>
    intro hj
    have hjk : j ≤ k := Nat.le_of_succ_le hj
    rw [Function.iterate_succ_apply', ih hjk]
    obtain ⟨key, hkey⟩ := Option.isSome_iff_exists.mp (h j (by omega))
    have hfetch : fetch (some key) = nthPage fetch (j + 1) := by
      rw [nthPage, hkey]
    simp only [nextPage, hkey, hfetch]
    have hlen : ¬ ((List.range (k + 1)).map (nthPage fetch)).length < 1 + j + 1 := by
      simp; omega
    rw [if_neg hlen]
    have hcp : 1 + j + 1 = 1 + (j + 1) := by omega
    have hcalls : k + 1 + j + 1 = k + 1 + (j + 1) := by omega
    simp only [hcp, hcalls]

/-- C2 amended: after `next()` is used `k` times from the initial load (pages
P1..P(k+1) displayed, history filled), `previous()` `k` times walks back to
P1 with no backend call, and the following `j`-th `next()` again displays
exactly the `j`-th page for every `j ≤ k` — the pages are reproduced in the
original order and the history is unchanged — but each replayed `next()`
issues one backend call (reaching `k+1+j` calls), re-fetching from the stored
continuation token instead of returning the stored page: the replay owes its
correctness to the determinism of the backend, not to the history. -/
theorem pagination_replay_reproduces_pages :
    ∀ (fetch : Option StartKey → QueryPage) (k j : Nat), j ≤ k →
      (∀ i, i < k → ((nthPage fetch i).lastEvaluatedKey).isSome = true) →
      ((nextPage fetch)^[j] (prevPage^[k] ((nextPage fetch)^[k] (firstLoad fetch)))).result
          = nthPage fetch j ∧
      ((nextPage fetch)^[j] (prevPage^[k] ((nextPage fetch)^[k] (firstLoad fetch)))).pageHistory
          = ((nextPage fetch)^[k] (firstLoad fetch)).pageHistory ∧
      ((nextPage fetch)^[j] (prevPage^[k] ((nextPage fetch)^[k] (firstLoad fetch)))).backendCalls
          = (k + 1) + j := by
  intro fetch k j hj h
  rw [forward_run fetch k h, backward_run fetch k k (le_refl k)]
  have h0 : k + 1 - k = 1 := by omega
  have h0' : k - k = 0 := by omega
  rw [h0, h0', replay_run fetch k h j hj]
  exact ⟨rfl, rfl, rfl⟩

/-- C2 amended, witness: on the deterministic two-page backend, one step
forward, one step back and one replayed step reproduce page 2 with an
unchanged history and a third backend call. -/
theorem pagination_replay_reproduces_pages_witness :
    ((nextPage twoPageFetch)^[1]
        (prevPage^[1] ((nextPage twoPageFetch)^[1] (firstLoad twoPageFetch)))).result
      = nthPage twoPageFetch 1 ∧
    ((nextPage twoPageFetch)^[1]
        (prevPage^[1] ((nextPage twoPageFetch)^[1] (firstLoad twoPageFetch)))).pageHistory
      = ((nextPage twoPageFetch)^[1] (firstLoad twoPageFetch)).pageHistory ∧
    ((nextPage twoPageFetch)^[1]
        (prevPage^[1] ((nextPage twoPageFetch)^[1] (firstLoad twoPageFetch)))).backendCalls
      = (1 + 1) + 1 :=
  pagination_replay_reproduces_pages twoPageFetch 1 1 (le_refl 1) (by decide)

theorem lookupVal_eraseKey_self (item : DisplayItem) (k : String) :
    lookupVal (eraseKey item k) k = none := by
  induction item with
  | nil => rfl
  | cons kv rest ih =>
    by_cases hk : kv.1 = k
    · simpa [eraseKey, List.filter_cons, hk] using ih
    · simpa [eraseKey, List.filter_cons, hk, lookupVal] using ih

theorem lookupVal_eraseKey_ne (item : DisplayItem) (k g : String) (h : g ≠ k) :
    lookupVal (eraseKey item k) g = lookupVal item g := by
  induction item with
  | nil => rfl
  | cons kv rest ih =>
    by_cases hk : kv.1 = k
    · have hne : ¬ kv.1 = g := by rw [hk]; exact fun hx => h hx.symm
      simp [eraseKey, List.filter_cons, hk, lookupVal, hne, Ne.symm h] at ih ⊢
      exact ih
    · simp [eraseKey, List.filter_cons, hk, lookupVal] at ih ⊢
      rw [ih]

theorem renderSchemaLoop_pruned_of_none (sfs : List String) :
    ∀ (item : DisplayItem) (k : String), lookupVal item k = none →
      lookupVal (renderSchemaLoop item sfs).2 k = none := by
  induction sfs with
  | nil => intro item k h; simpa [renderSchemaLoop] using h
  | cons sf rest ih =>
    intro item k h
    cases hv : lookupVal item sf with
    | some v =>
      rw [renderSchemaLoop, hv]
      apply ih
      by_cases hk : k = sf
      · subst hk; exact lookupVal_eraseKey_self item k
      · rw [lookupVal_eraseKey_ne item sf k hk]; exact h
    | none =>
      rw [renderSchemaLoop, hv]
      exact ih item k h

theorem renderSchemaLoop_pruned_of_mem (sfs : List String) :
    ∀ (item : DisplayItem) (g : String), g ∈ sfs →
      lookupVal (renderSchemaLoop item sfs).2 g = none := by
  induction sfs with
  | nil => intro item g h; exact absurd h (List.not_mem_nil g)
  | cons sf rest ih =>
    intro item g hg
    cases hv : lookupVal item sf with
    | some v =>
      rw [renderSchemaLoop, hv]
      by_cases hgsf : g = sf
      · subst hgsf
        exact renderSchemaLoop_pruned_of_none rest (eraseKey item g) g
          (lookupVal_eraseKey_self item g)
      · exact ih (eraseKey item sf) g (by
          rcases List.mem_cons.mp hg with h | h
          · exact absurd h hgsf
          · exact h)
    | none =>
      rw [renderSchemaLoop, hv]
      by_cases hgsf : g = sf
      · subst hgsf
        exact renderSchemaLoop_pruned_of_none rest item g hv
      · exact ih item g (by
          rcases List.mem_cons.mp hg with h | h
          · exact absurd h hgsf
          · exact h)

theorem renderSchemaLoop_renders_present (sfs : List String) :
    ∀ (item : DisplayItem) (f v : String), f ∈ sfs → lookupVal item f = some v →
      (f, v) ∈ (renderSchemaLoop item sfs).1 := by
  induction sfs with
  | nil => intro item f v h _; exact absurd h (List.not_mem_nil f)
  | cons sf rest ih =>
    intro item f v hf hv
    by_cases hfsf : f = sf
    · subst hfsf
      rw [renderSchemaLoop, hv]
      exact List.mem_cons_self _ _
    · have hfrest : f ∈ rest := by
        rcases List.mem_cons.mp hf with h | h
        · exact absurd h hfsf
        · exact h
      cases hw : lookupVal item sf with
      | some w =>
        rw [renderSchemaLoop, hw]
        exact List.mem_cons_of_mem _ (ih (eraseKey item sf) f v hfrest
          (by rw [lookupVal_eraseKey_ne item sf f hfsf]; exact hv))
      | none =>
        rw [renderSchemaLoop, hw]
        exact ih item f v hfrest hv

theorem entry_key_ne_of_lookup_none (l : DisplayItem) (g : String)
    (h : lookupVal l g = none) : ∀ r ∈ l, r.1 ≠ g := by
  induction l with
  | nil => intro r hr; exact absurd hr (List.not_mem_nil r)
  | cons kv rest ih =>
    intro r hr
    rw [lookupVal] at h
    by_cases hk : kv.1 = g
    · rw [if_pos hk] at h; exact absurd h (by simp)
    · rw [if_neg hk] at h
      rcases List.mem_cons.mp hr with h' | h'
      · rw [h']; exact hk
      · exact ih h r h'

theorem renderSchemaLoop_of_all_absent (sfs : List String) (item : DisplayItem)
    (h : ∀ g ∈ sfs, lookupVal item g = none) :
    renderSchemaLoop item sfs = ([], item) := by
  induction sfs with
  | nil => rfl
  | cons sf rest ih =>
    rw [renderSchemaLoop, h sf (List.mem_cons_self sf rest)]
    exact ih (fun g hg => h g (List.mem_cons_of_mem sf hg))

/-- C10: opening the item-detail view mutates the stored display item — every
schema-key entry is deleted from the item's map as it is rendered.  The first
display does show each present schema-key row; afterwards the item map no
longer contains any schema field, so a second display of the same row shows
none of them; and because the page history holds the very same item map, the
pruned item is what the history entry of the current page stores after the
first display. -/
theorem item_detail_rendering_deletes_schema_fields :
    ∀ (SchemaFields : List String) (item : DisplayItem) (f v : String),
      f ∈ SchemaFields → lookupVal item f = some v →
      ((f, v) ∈ (renderItemDetail SchemaFields item).1) ∧
      (∀ g, g ∈ SchemaFields → lookupVal (renderItemDetail SchemaFields item).2 g = none) ∧
      (∀ r, r ∈ (renderItemDetail SchemaFields (renderItemDetail SchemaFields item).2).1 →
          r.1 ∉ SchemaFields) ∧
      (∀ (s : ResultsState) (row : Nat),
          1 ≤ row → row ≤ s.result.items.length →
          s.result.items[row - 1]? = some item →
          s.currentPage - 1 < s.pageHistory.length →
          ∃ page, ((openItemDetail SchemaFields s row).1.pageHistory)[s.currentPage - 1]?
              = some page ∧
            page.items[row - 1]? = some (renderItemDetail SchemaFields item).2) := by
  intro sfs item f v hf hv
  have hpruned : ∀ g, g ∈ sfs → lookupVal (renderItemDetail sfs item).2 g = none :=
    fun g hg => renderSchemaLoop_pruned_of_mem sfs item g hg
  refine ⟨?_, hpruned, ?_, ?_⟩
  · exact List.mem_append_left _ (renderSchemaLoop_renders_present sfs item f v hf hv)
  · intro r hr hmem
    have hloop : renderSchemaLoop (renderItemDetail sfs item).2 sfs
        = ([], (renderItemDetail sfs item).2) :=
      renderSchemaLoop_of_all_absent sfs _ (fun g hg => hpruned g hg)
    rw [renderItemDetail, hloop] at hr
    simp only [List.nil_append] at hr
    exact entry_key_ne_of_lookup_none _ r.1 (hpruned r.1 hmem) r hr rfl
  · intro s row hrow1 hrow2 hitem halign
    have hbound : 1 ≤ row ∧ row ≤ s.result.items.length := ⟨hrow1, hrow2⟩
    rw [openItemDetail, if_pos hbound, List.get?_eq_getElem?, hitem]
    refine ⟨{ s.result with
        items := s.result.items.set (row - 1) (renderItemDetail sfs item).2 }, ?_, ?_⟩
    · exact List.getElem?_set_eq_of_lt _ halign
    · have : row - 1 < s.result.items.length := by omega
      exact List.getElem?_set_eq_of_lt _ this

/-- C10 witness: the theorem applied to the one-schema-field item
`detailDemoItem` on the single-page backend `detailDemoFetch`. -/
theorem item_detail_rendering_deletes_schema_fields_witness :
    ("id", "u1") ∈ (renderItemDetail ["id"] detailDemoItem).1 ∧
    lookupVal (renderItemDetail ["id"] detailDemoItem).2 "id" = none ∧
    (∃ page,
        ((openItemDetail ["id"] (firstLoad detailDemoFetch) 1).1.pageHistory)[
            (firstLoad detailDemoFetch).currentPage - 1]? = some page ∧
        page.items[0]? = some (renderItemDetail ["id"] detailDemoItem).2) := by
  have h := item_detail_rendering_deletes_schema_fields ["id"] detailDemoItem "id" "u1"
    (by decide) (by decide)
  exact ⟨h.1, h.2.1 "id" (by decide),
    h.2.2.2 (firstLoad detailDemoFetch) 1 (by decide) (by decide) (by decide) (by decide)⟩

/-- C9: exporting an item writes the full raw item as 4-space-indented JSON
under a name built from its key values: in general the cleaned name contains
none of the path-hostile characters `/`, space, `:` (each was replaced by
`_`), and for the scenario item
`\x7bid:"u1", ts:"2024-01-01", title:"Hello", tags:["a","b"]\x7d` the file is
named `u1_2024-01-01.json` and its body holds all four fields with `tags` a
JSON array of the two strings (keys sorted, as Go's JSON encoder emits maps). -/
theorem export_scenario_filename_and_json :
    (∀ s : String, ((cleanFilename s).data.all
        (fun c => !(c == '/' || c == ' ' || c == ':'))) = true) ∧
    saveItemFilename scenarioRawItem "id" "ts" = "u1_2024-01-01.json" ∧
    jsonMarshalIndent scenarioRawItem
      = "\x7b\n    \"id\": \"u1\",\n    \"tags\": [\n        \"a\",\n        \"b\"\n    ],\n    \"title\": \"Hello\",\n    \"ts\": \"2024-01-01\"\n\x7d" := by
  refine ⟨?_, by decide, by decide⟩
  intro s
  have hdata : (cleanFilename s).data
      = s.data.map (fun c =>
          if (if (if c = '/' then '_' else c) = ' ' then '_'
              else (if c = '/' then '_' else c)) = ':' then '_'
          else (if (if c = '/' then '_' else c) = ' ' then '_'
              else (if c = '/' then '_' else c))) := by
    simp [cleanFilename, replaceChar, List.map_map]
  rw [hdata, List.all_map, List.all_eq_true]
  intro c _
  by_cases h1 : c = '/'
  · simp [h1]
  · by_cases h2 : c = ' '
    · simp [h1, h2]
    · by_cases h3 : c = ':'
      · simp [h1, h2, h3]
      · simp [h1, h2, h3]
